import Mathlib

/-!
Verification development for the exam-question ingestion and analysis
pipeline of the Study-AI-Agent repository.

The definitions below are shallow embeddings of the Python sources:

* `core/models.py`      — the pydantic data model (`AnalyzedQuestion`,
  `ExamPattern`, `QuestionBank`);
* `core/exam_analysis.py` — the text segmenter `_extract_year_sections`,
  the two-tier extraction orchestrator `parse_questions_from_text`
  (with the external structured-extraction service modelled as an
  explicit `String → Except Unit QuestionBank` parameter), and the
  module mapper `map_questions_to_modules`;
* `core/ingest.py`      — the JSON question-bank store
  (`save_analyzed_questions` / `get_analyzed_questions`), with the
  persisted file modelled as a parsed JSON value;
* `streamlit/viz_utils.py` — text normalisation, the
  `difflib.SequenceMatcher` similarity ratio, the greedy clusterer
  `cluster_similar_questions` and the high-yield view
  `analyze_repeated_questions`.

Python `str` is modelled by `String`/`List Char` (ASCII reading of the
`re` character classes), Python `int` by `Int`, Python floats produced by
`difflib`'s ratio by `ℚ` (the ratio is an exact rational `2*M/T`), and
Python sets by `Finset String`.
-/

namespace StudyAgent

/-! ### Data model (core/models.py) -/

/-- Embeds `AnalyzedQuestion` from `core/models.py`.  The `id` field is
generated by a uuid factory at creation; here it is an ordinary field. -/
structure AnalyzedQuestion where
  id : String
  number : Int
  part : Option String
  text : String
  marks : Int
  module : Option String
  topic : Option String
  year : Option String
  paper_name : Option String
deriving DecidableEq, Repr

/-- Embeds `ExamSection` from `core/models.py`. -/
structure ExamSection where
  name : String
  question_range : List Int
  marks_per_question : Int
  has_choice : Bool
deriving DecidableEq, Repr

/-- Embeds `ExamPattern` from `core/models.py`.  The Python
`module_mapping : Dict[str, List[int]]` is an insertion-ordered dict;
it is modelled as the ordered association list of its entries. -/
structure ExamPattern where
  name : String
  sections : List ExamSection
  module_mapping : List (String × List Int)
deriving DecidableEq, Repr

/-- Embeds `QuestionBank` from `core/models.py`. -/
structure QuestionBank where
  questions : List AnalyzedQuestion
deriving DecidableEq, Repr

/-! ### Character helpers shared by the regex and normalisation code -/

/-- ASCII whitespace, the characters matched by Python `\s` and stripped
by `str.strip()` (ASCII fragment). -/
def isPySpace (c : Char) : Bool :=
  c == ' ' || c == '\t' || c == '\n' || c == '\r' || c == '\x0b' || c == '\x0c'

/-- A Python regex word character (`\w`, ASCII fragment): used for the
`\b` boundaries of the year pattern. -/
def isPyWordChar (c : Char) : Bool :=
  c.isAlphanum || c == '_'

/-- Python `str.strip()` on a character list: drop whitespace from both
ends. -/
def pyStrip (cs : List Char) : List Char :=
  ((cs.dropWhile isPySpace).reverse.dropWhile isPySpace).reverse

/-! ### Text segmenter (`_extract_year_sections`, core/exam_analysis.py)

The year pattern is the regex `\b(19|20)\d{2}\b`.  A match is four
characters long: the captured group 1 is the two-character alternation
`(19|20)`, followed by two digits, with word boundaries on both sides. -/

/-- Does the year regex `\b(19|20)\d{2}\b` match `s` at position `i`?
Since the character at `i` (resp. `i+3`) is a digit whenever the body
matches, the boundary `\b` before (resp. after) the match reduces to the
neighbour being absent or a non-word character. -/
def yearMatchAt (s : List Char) (i : Nat) : Bool :=
  decide (i + 4 ≤ s.length) &&
  (i == 0 || !isPyWordChar (s.getD (i - 1) ' ')) &&
  ((s.getD i ' ' == '1' && s.getD (i + 1) ' ' == '9') ||
   (s.getD i ' ' == '2' && s.getD (i + 1) ' ' == '0')) &&
  (s.getD (i + 2) ' ').isDigit &&
  (s.getD (i + 3) ' ').isDigit &&
  (i + 4 == s.length || !isPyWordChar (s.getD (i + 4) ' '))

/-- Worker for the `re.finditer` scan: `fuel` counts the positions left
before the end of the string and the skip counter implements the
restart after the end of a (four-character) match, so matches never
overlap.  Structural recursion on `fuel` keeps the definition reducible
by the kernel. -/
def findYearGo (s : List Char) : Nat → Nat → Nat → List Nat
  | 0, _, _ => []
  | fuel + 1, i, skip + 1 => findYearGo s fuel (i + 1) skip
  | fuel + 1, i, 0 =>
    if yearMatchAt s i then i :: findYearGo s fuel (i + 1) 3
    else findYearGo s fuel (i + 1) 0

/-- Start positions of the matches produced by
`re.finditer(year_pattern, text)` from position `i` on: the scan moves
left to right, restarting after the end of each match. -/
def findYearMatchesFrom (s : List Char) (i : Nat) : List Nat :=
  findYearGo s (s.length - i) i 0

/-- Embeds `QuestionPaperAnalyzer._extract_year_sections`.  Sections run
from one match position to the next (the text before the first match and
after the last match forming boundary sections); empty-after-strip
sections are dropped; each section's year label is taken from the first
year match within its first 500 characters — note that the Python code
reads `year_match.group(1)`, the two-character `(19|20)` capture, not the
whole four-character match. -/
def extract_year_sections (text : String) (default_year : String) :
    List (String × String) :=
  let s := text.data
  let positions := findYearMatchesFrom s 0
  if positions = [] then [(default_year, text)]
  else
    (List.range (positions.length + 1)).filterMap (fun i =>
      let start := if i = 0 then 0 else positions.getD (i - 1) 0
      let stop := if i < positions.length then positions.getD i 0 else s.length
      let section_text := pyStrip ((s.drop start).take (stop - start))
      if section_text = [] then none
      else
        let head500 := section_text.take 500
        let year :=
          match (findYearMatchesFrom head500 0).head? with
          | some p => String.mk ((head500.drop p).take 2)
          | none => default_year
        some (year, String.mk section_text))

/-! ### Module mapper (`map_questions_to_modules`, core/exam_analysis.py) -/

/-- The reverse lookup `q_to_mod` built by iterating
`pattern.module_mapping` in definition order: the resulting association
list records every assignment `q_num ↦ mod_name` in iteration order. -/
def buildQToMod (mapping : List (String × List Int)) : List (Int × String) :=
  mapping.flatMap (fun p => p.2.map (fun n => (n, p.1)))

/-- Lookup in the Python dict `q_to_mod`: a later assignment to the same
key overwrites an earlier one, so the value found is the last binding. -/
def dictLookupLast (l : List (Int × String)) (k : Int) : Option String :=
  (l.reverse.find? (fun e => e.1 == k)).map (·.2)

/-- Embeds `QuestionPaperAnalyzer.map_questions_to_modules`: every
question whose number appears in `q_to_mod` gets that module, every
other question gets the literal module `"Unknown"`.  The Python code
mutates the list in place and returns it; the embedding returns the
updated copy. -/
def map_questions_to_modules (questions : List AnalyzedQuestion)
    (pattern : ExamPattern) : List AnalyzedQuestion :=
  let q_to_mod := buildQToMod pattern.module_mapping
  questions.map (fun q =>
    match dictLookupLast q_to_mod q.number with
    | some m => { q with module := some m }
    | none => { q with module := some "Unknown" })

/-! ### Extraction orchestrator (`parse_questions_from_text`,
core/exam_analysis.py)

The external structured-extraction service (`structured_llm.invoke`) is
modelled as an explicit parameter `invoke : String → Except Unit
QuestionBank`: given the prompt it either returns a populated
`QuestionBank` or fails.  Python `str.format` on the two prompt
templates is modelled by splitting each template at its placeholders and
concatenating.  The template texts below follow the source (quote marks
inside the templates elided). -/

/-- Text of `base_prompt` before the `{}` placeholder. -/
def basePromptFront : String :=
  "\n        Extract all examination questions from the following text, which may contain multiple consecutive question papers from different years.\n\n        For each question, identify:\n        - Year: Infer from the nearest header, section title, or context (e.g., 2020 if the question appears under a 2020 paper section). If unclear, use Unknown.\n        - Question Number (integer)\n        - Part/Sub-question (e.g., a, b, or null)\n        - The exact Text of the question\n        - Marks allocated (integer, infer from context if possible, else 0)\n\n        Ignore instructions like \"Answer all questions\" or extraneous header information.\n        Focus on the numbered questions. Group questions by their inferred year where possible.\n\n        Text:\n        "

/-- The full-document prompt `base_prompt.format(text)`. -/
def bulkPrompt (text : String) : String :=
  basePromptFront ++ text ++ "\n        "

/-- Text of `fallback_prompt_template` before the first `{}`
placeholder (which receives the section year). -/
def fallbackPromptFront : String :=
  "\n            Extract all examination questions from the following text section.\n\n            Use the year: "

/-- Text of `fallback_prompt_template` between its two placeholders. -/
def fallbackPromptMid : String :=
  " for all questions in this section.\n\n            For each question, identify:\n            - Question Number (integer)\n            - Part/Sub-question (e.g., a, b, or null)\n            - The exact Text of the question\n            - Marks allocated (integer, infer from context if possible, else 0)\n\n            Ignore instructions like \"Answer all questions\" or extraneous header information.\n            Focus on the numbered questions.\n\n            Text:\n            "

/-- The per-section prompt `fallback_prompt_template.format(sec_year,
sec_text)`. -/
def fallbackPrompt (sec_year sec_text : String) : String :=
  fallbackPromptFront ++ sec_year ++ fallbackPromptMid ++ sec_text ++ "\n            "

/-- Post-processing of the bulk tier: `if not q.year or q.year ==
"Unknown": q.year = year`, then `q.paper_name = paper_name`.  Python
`not q.year` is true when `year` is `None` or the empty string. -/
def stampBulk (year paper_name : String) (q : AnalyzedQuestion) :
    AnalyzedQuestion :=
  let q :=
    if q.year = none ∨ q.year = some "" ∨ q.year = some "Unknown" then
      { q with year := some year }
    else q
  { q with paper_name := some paper_name }

/-- Embeds `QuestionPaperAnalyzer.parse_questions_from_text`.  The bulk
tier submits the whole text; any service error falls back to per-section
extraction over `_extract_year_sections`, where a failing section is
skipped (`continue`) and the remaining sections are still processed, so
no error escapes past the bulk attempt. -/
def parse_questions_from_text (invoke : String → Except Unit QuestionBank)
    (text year paper_name : String) : List AnalyzedQuestion :=
  match invoke (bulkPrompt text) with
  | .ok result => result.questions.map (stampBulk year paper_name)
  | .error _ =>
    let sections := extract_year_sections text year
    sections.flatMap (fun sec =>
      if pyStrip sec.2.data = [] then []
      else
        match invoke (fallbackPrompt sec.1 sec.2) with
        | .ok sub_result =>
          sub_result.questions.map (fun q =>
            { q with year := some sec.1, paper_name := some paper_name })
        | .error _ => [])

/-! ### Question bank store (core/ingest.py)

The per-subject JSON file is modelled as a parsed JSON value, with extra
states for a missing file and a file whose bytes fail to parse.
`model_dump` of an `AnalyzedQuestion` is the JSON object with its nine
documented fields; pydantic validation of such an object is `decodeQ`.
All fields round-trip losslessly through this representation (strings,
integers and null only). -/

/-- A parsed JSON value. -/
inductive JVal where
  | null : JVal
  | jbool (b : Bool) : JVal
  | jnum (n : Int) : JVal
  | jstr (s : String) : JVal
  | jarr (xs : List JVal) : JVal
  | jobj (fields : List (String × JVal)) : JVal
deriving BEq

/-- State of the per-subject `question_bank.json` file. -/
inductive FileState where
  | absent : FileState
  | malformed : FileState
  | parsed (j : JVal) : FileState

/-- Field lookup in a JSON object (Python dict: keys are unique). -/
def jlookup (fields : List (String × JVal)) (k : String) : Option JVal :=
  (fields.find? (fun p => p.1 == k)).map (·.2)

/-- JSON form of an optional string field (`None` dumps to `null`). -/
def dumpOptStr : Option String → JVal
  | none => .null
  | some s => .jstr s

/-- `model_dump` of an `AnalyzedQuestion`: the JSON object holding its
nine documented fields. -/
def dumpQ (q : AnalyzedQuestion) : JVal :=
  .jobj [("id", .jstr q.id), ("number", .jnum q.number),
         ("part", dumpOptStr q.part), ("text", .jstr q.text),
         ("marks", .jnum q.marks), ("module", dumpOptStr q.module),
         ("topic", dumpOptStr q.topic), ("year", dumpOptStr q.year),
         ("paper_name", dumpOptStr q.paper_name)]

/-- `model_dump` of a `QuestionBank` (the wrapped object form written by
`save_analyzed_questions`). -/
def dumpBank (qs : List AnalyzedQuestion) : JVal :=
  .jobj [("questions", .jarr (qs.map dumpQ))]

/-- Decode an optional-string field: absent or `null` gives `None`. -/
def decodeOptStrField (fields : List (String × JVal)) (k : String) :
    Except Unit (Option String) :=
  match jlookup fields k with
  | none => .ok none
  | some .null => .ok none
  | some (.jstr s) => .ok (some s)
  | some _ => .error ()

/-- Decode a required string field. -/
def decodeStrField (fields : List (String × JVal)) (k : String) :
    Except Unit String :=
  match jlookup fields k with
  | some (.jstr s) => .ok s
  | _ => .error ()

/-- Decode a required integer field. -/
def decodeIntField (fields : List (String × JVal)) (k : String) :
    Except Unit Int :=
  match jlookup fields k with
  | some (.jnum n) => .ok n
  | _ => .error ()

/-- Pydantic validation `AnalyzedQuestion(**q)` of a JSON record.
When `id` is absent the pydantic default factory generates a fresh uuid;
since uuid generation is nondeterministic it is modelled by a fixed
placeholder — the theorems below only ever load records in which `id`
is present. -/
def decodeQ (j : JVal) : Except Unit AnalyzedQuestion :=
  match j with
  | .jobj fields => do
    let idv ←
      match jlookup fields "id" with
      | some (.jstr s) => Except.ok s
      | none => Except.ok "uuid-placeholder"
      | some _ => Except.error ()
    let number ← decodeIntField fields "number"
    let part ← decodeOptStrField fields "part"
    let text ← decodeStrField fields "text"
    let marks ← decodeIntField fields "marks"
    let module ← decodeOptStrField fields "module"
    let topic ← decodeOptStrField fields "topic"
    let year ← decodeOptStrField fields "year"
    let paper_name ← decodeOptStrField fields "paper_name"
    .ok ⟨idv, number, part, text, marks, module, topic, year, paper_name⟩
  | _ => .error ()

/-- Pydantic validation `QuestionBank(**data)` of a JSON object: the
`questions` field (defaulting to `[]` when absent) must be a list whose
every element validates as an `AnalyzedQuestion`. -/
def decodeBank (j : JVal) : Except Unit QuestionBank :=
  match j with
  | .jobj fields =>
    match jlookup fields "questions" with
    | none => .ok ⟨[]⟩
    | some (.jarr xs) => do
      let qs ← xs.mapM decodeQ
      .ok ⟨qs⟩
    | some _ => .error ()
  | _ => .error ()

/-- The load-and-migrate step at the start of
`KnowledgeBase.save_analyzed_questions`: a missing file, a file that
fails to parse, a validation error, or a payload that is neither a list
nor an object all leave the current bank empty; a bare list (legacy
form) is validated element-wise; an object is validated as a
`QuestionBank`. -/
def loadBankForSave : FileState → QuestionBank
  | .absent => ⟨[]⟩
  | .malformed => ⟨[]⟩
  | .parsed j =>
    match j with
    | .jarr items =>
      match items.mapM decodeQ with
      | .ok qs => ⟨qs⟩
      | .error _ => ⟨[]⟩
    | .jobj fields =>
      match decodeBank (.jobj fields) with
      | .ok bank => bank
      | .error _ => ⟨[]⟩
    | _ => ⟨[]⟩

/-- Embeds `KnowledgeBase.save_analyzed_questions` for one subject file:
load the current bank (with legacy migration), append `new_questions`,
and write the wrapped-object dump back; the result is the new file
content. -/
def save_analyzed_questions (file : FileState)
    (new_questions : List AnalyzedQuestion) : JVal :=
  dumpBank ((loadBankForSave file).questions ++ new_questions)

/-- Embeds `KnowledgeBase.get_analyzed_questions` for one subject file:
a missing or unparseable file yields `[]`; a bare list is returned as
is; an object yields its raw `questions` member (default `[]`); any
other payload falls off the end of the Python `if/elif` and returns
`None`, modelled as `none`. -/
def get_analyzed_questions : FileState → Option JVal
  | .absent => some (.jarr [])
  | .malformed => some (.jarr [])
  | .parsed j =>
    match j with
    | .jarr items => some (.jarr items)
    | .jobj fields => some ((jlookup fields "questions").getD (.jarr []))
    | _ => none

/-! ### Similarity (`clean_text` / `get_similarity`, streamlit/viz_utils.py)

`get_similarity` is `difflib.SequenceMatcher(None, a, b).ratio()` on the
normalised strings.  The matcher is embedded faithfully: `b2j` with the
autojunk purge of popular elements (`len(b) >= 200`), the
`find_longest_match` dynamic-programming loop with its `j2len` row
dictionary (modelled as a function `Nat → Nat`), and the two greedy
extension loops.  With `isjunk=None` the junk set `bjunk` is empty, so
`isbjunk` is constantly false: the two non-junk extension loops run
unconditioned on junk and the two junk extension loops never fire, and
they are therefore omitted. -/

/-- Embeds `clean_text`: lower-case, drop every character that is not a
lowercase ASCII letter, digit or whitespace, then strip. -/
def clean_text (text : String) : String :=
  let lowered := text.data.map Char.toLower
  let kept := lowered.filter (fun c => c.isLower || c.isDigit || isPySpace c)
  String.mk (pyStrip kept)

/-- Ascending list of the positions of `c` in `b` (the index lists of
the `b2j` dictionary before the autojunk purge). -/
def indicesOf (b : List Char) (c : Char) : List Nat :=
  (List.range b.length).filter (fun j => b.getD j ' ' == c)

/-- The `b2j` dictionary after `__chain_b`: when `len(b) >= 200`,
popular elements (appearing in more than `len(b) // 100 + 1` positions)
are purged; `isjunk` is `None` so no junk purge happens. -/
def b2j (b : List Char) (c : Char) : List Nat :=
  if 200 ≤ b.length ∧ b.length / 100 + 1 < b.count c then []
  else indicesOf b c

/-- State `(besti, bestj, bestsize)` of `find_longest_match`. -/
structure FLM where
  besti : Nat
  bestj : Nat
  bestsize : Nat
deriving DecidableEq, Repr

/-- The inner loop of `find_longest_match` over the position list
`b2j[a[i]]`: positions below `blo` are skipped, the loop breaks at
`bhi`, and each processed `j` records `k = j2len.get(j-1, 0) + 1` in the
new row (in Python, `j - 1 = -1` falls outside the dict, hence the
`j = 0` case) and updates the best block when `k > bestsize`. -/
def flmInner (j2len : Nat → Nat) (i blo bhi : Nat) :
    List Nat → (Nat → Nat) → FLM → ((Nat → Nat) × FLM)
  | [], newj2len, st => (newj2len, st)
  | j :: js, newj2len, st =>
    if j < blo then flmInner j2len i blo bhi js newj2len st
    else if bhi ≤ j then (newj2len, st)
    else
      let k := (if j = 0 then 0 else j2len (j - 1)) + 1
      let newj2len' := fun x => if x = j then k else newj2len x
      let st' := if st.bestsize < k then FLM.mk (i + 1 - k) (j + 1 - k) k else st
      flmInner j2len i blo bhi js newj2len' st'

/-- The outer loop of `find_longest_match` over `i ∈ range(alo, ahi)`:
each row rebuilds `newj2len` from scratch and threads the best block. -/
def flmOuter (a b : List Char) (blo bhi : Nat) :
    List Nat → (Nat → Nat) → FLM → FLM
  | [], _, st => st
  | i :: is, j2len, st =>
    let step := flmInner j2len i blo bhi (b2j b (a.getD i ' ')) (fun _ => 0) st
    flmOuter a b blo bhi is step.1 step.2

/-- Worker for the first extension loop: each iteration moves `besti`
down by one, so `besti` itself bounds the iteration count; when the
fuel runs out `besti = 0` and the loop guard `alo < besti` is false
anyway, so the fuelled worker agrees with the unbounded loop. -/
def extendBackGo (a b : List Char) (alo blo : Nat) : Nat → FLM → FLM
  | 0, st => st
  | fuel + 1, st =>
    if alo < st.besti ∧ blo < st.bestj ∧
        a.getD (st.besti - 1) ' ' = b.getD (st.bestj - 1) ' ' then
      extendBackGo a b alo blo fuel ⟨st.besti - 1, st.bestj - 1, st.bestsize + 1⟩
    else st

/-- The first extension loop: grow the best block backwards while the
preceding characters match (with `isbjunk` constantly false). -/
def extendBack (a b : List Char) (alo blo : Nat) (st : FLM) : FLM :=
  extendBackGo a b alo blo st.besti st

/-- Worker for the second extension loop: each iteration grows
`bestsize` by one while `bestj + bestsize < bhi`, so
`bhi - (bestj + bestsize)` bounds the iteration count; when the fuel
runs out the guard is false anyway, so the fuelled worker agrees with
the unbounded loop. -/
def extendFwdGo (a b : List Char) (ahi bhi : Nat) : Nat → FLM → FLM
  | 0, st => st
  | fuel + 1, st =>
    if st.besti + st.bestsize < ahi ∧ st.bestj + st.bestsize < bhi ∧
        a.getD (st.besti + st.bestsize) ' ' = b.getD (st.bestj + st.bestsize) ' ' then
      extendFwdGo a b ahi bhi fuel ⟨st.besti, st.bestj, st.bestsize + 1⟩
    else st

/-- The second extension loop: grow the best block forwards while the
following characters match (with `isbjunk` constantly false). -/
def extendFwd (a b : List Char) (ahi bhi : Nat) (st : FLM) : FLM :=
  extendFwdGo a b ahi bhi (bhi - (st.bestj + st.bestsize)) st

/-- Embeds `SequenceMatcher.find_longest_match` on the region
`a[alo:ahi] × b[blo:bhi]`: the DP loops followed by the two extension
loops (the two junk extension loops never fire since `bjunk = ∅`). -/
def find_longest_match (a b : List Char) (alo ahi blo bhi : Nat) : FLM :=
  let st := flmOuter a b blo bhi (List.range' alo (ahi - alo)) (fun _ => 0)
    ⟨alo, blo, 0⟩
  extendFwd a b ahi bhi (extendBack a b alo blo st)

/-- The recursion of `get_matching_blocks`: find the longest match of
the region, then recurse on the region to its left and to its right.
The Python code drives this recursion with an explicit queue, then sorts
the collected blocks and merges adjacent ones — both steps preserve the
multiset of block sizes, which is all `ratio` reads.  The recursion
depth is bounded by the region perimeter, provided here as fuel: each
recursive call strictly shrinks `(ahi - alo) + (bhi - blo)` (see
`matchBlocksF_sizes_le` below), so the fuel passed by
`matching_blocks` never runs out. -/
def matchBlocksF (a b : List Char) :
    Nat → Nat → Nat → Nat → Nat → List (Nat × Nat × Nat)
  | 0, _, _, _, _ => []
  | fuel + 1, alo, ahi, blo, bhi =>
    let m := find_longest_match a b alo ahi blo bhi
    if m.bestsize = 0 then []
    else
      matchBlocksF a b fuel alo m.besti blo m.bestj ++
        [(m.besti, m.bestj, m.bestsize)] ++
        matchBlocksF a b fuel (m.besti + m.bestsize) ahi
          (m.bestj + m.bestsize) bhi

/-- The matching blocks of the whole pair `(a, b)` (without the final
zero-size sentinel `(la, lb, 0)`, which contributes nothing to the size
sum). -/
def matching_blocks (a b : List Char) : List (Nat × Nat × Nat) :=
  matchBlocksF a b (a.length + b.length + 1) 0 a.length 0 b.length

/-- The total number of matched elements, `sum(triple[-1] for triple in
self.get_matching_blocks())`. -/
def matchesTotal (a b : List Char) : Nat :=
  ((matching_blocks a b).map (fun t => t.2.2)).sum

/-- Embeds `SequenceMatcher.ratio` via `_calculate_ratio`:
`2.0 * matches / length if length else 1.0`, as an exact rational. -/
def ratioQ (a b : List Char) : ℚ :=
  if a.length + b.length = 0 then 1
  else 2 * (matchesTotal a b : ℚ) / ((a.length : ℚ) + (b.length : ℚ))

/-- Embeds `get_similarity`: the matcher ratio over the normalised
strings. -/
def get_similarity (s1 s2 : String) : ℚ :=
  ratioQ (clean_text s1).data (clean_text s2).data

/-! ### Recurrence clusterer (`cluster_similar_questions` /
`analyze_repeated_questions`, streamlit/viz_utils.py) -/

/-- One cluster dictionary: `text`, `questions`, `years`, `total_marks`,
`modules`.  Python sets of year and module strings become `Finset
String`. -/
structure Cluster where
  text : String
  questions : List AnalyzedQuestion
  years : Finset String
  total_marks : Int
  modules : Finset String
deriving DecidableEq

/-- The seed set `{q1.year} if q1.year else set()`: Python truthiness
makes both `None` and the empty string yield the empty set. -/
def truthySet (o : Option String) : Finset String :=
  match o with
  | none => ∅
  | some s => if s = "" then ∅ else {s}

/-- Conditional set insertion `if v: acc.add(v)` for an optional string
(skipped for `None` and for the empty string). -/
def truthyInsert (o : Option String) (acc : Finset String) : Finset String :=
  match o with
  | none => acc
  | some s => if s = "" then acc else insert s acc

/-- The inner scan of `cluster_similar_questions` for the seed `q1` at
enumeration index `i`: walk the whole enumerated sorted list, skip the
seed's own index and every already-processed id, and attach every
remaining question whose similarity to the seed reaches the threshold,
marking it processed. -/
def clusterScan (threshold : ℚ) (i : Nat) (q1 : AnalyzedQuestion) :
    List (Nat × AnalyzedQuestion) → Cluster → List String →
    Cluster × List String
  | [], c, processed => (c, processed)
  | (j, q2) :: rest, c, processed =>
    if i = j ∨ q2.id ∈ processed then
      clusterScan threshold i q1 rest c processed
    else if threshold ≤ get_similarity q1.text q2.text then
      clusterScan threshold i q1 rest
        { text := c.text,
          questions := c.questions ++ [q2],
          years := truthyInsert q2.year c.years,
          total_marks := c.total_marks + q2.marks,
          modules := truthyInsert q2.module c.modules }
        (q2.id :: processed)
    else clusterScan threshold i q1 rest c processed

/-- The outer loop of `cluster_similar_questions`: walk the enumerated
sorted list; every question not yet processed seeds a new cluster
(initialised from the seed and immediately marked processed) which the
inner scan then populates. -/
def clusterOuter (threshold : ℚ) (all : List (Nat × AnalyzedQuestion)) :
    List (Nat × AnalyzedQuestion) → List String → List Cluster
  | [], _ => []
  | (i, q1) :: rest, processed =>
    if q1.id ∈ processed then clusterOuter threshold all rest processed
    else
      let step := clusterScan threshold i q1 all
        { text := q1.text, questions := [q1], years := truthySet q1.year,
          total_marks := q1.marks, modules := truthySet q1.module }
        (q1.id :: processed)
      step.1 :: clusterOuter threshold all rest step.2

/-- The stable descending-length sort
`sorted(questions, key=lambda q: len(q.text), reverse=True)`. -/
def sortByLenDesc (questions : List AnalyzedQuestion) :
    List AnalyzedQuestion :=
  questions.mergeSort (fun a b => decide (b.text.length ≤ a.text.length))

/-- Embeds `cluster_similar_questions`. -/
def cluster_similar_questions (questions : List AnalyzedQuestion)
    (threshold : ℚ) : List Cluster :=
  let sorted_qs := sortByLenDesc questions
  clusterOuter threshold sorted_qs.enum sorted_qs.enum []

/-- Embeds the cluster selection and ordering of
`analyze_repeated_questions` (the Streamlit rendering around it has no
data content): cluster at threshold `0.8`, keep the clusters with more
than one member spanning more than one distinct year, and sort the
survivors by `(count, total_marks)` descending (a stable sort on the
lexicographic tuple key, as in Python). -/
def analyze_repeated_questions (questions : List AnalyzedQuestion) :
    List Cluster :=
  let clusters := cluster_similar_questions questions (8 / 10 : ℚ)
  let repeats := clusters.filter (fun c =>
    decide (1 < c.questions.length) && decide (1 < c.years.card))
  repeats.mergeSort (fun c1 c2 =>
    decide (c2.questions.length < c1.questions.length) ||
      (decide (c1.questions.length = c2.questions.length) &&
        decide (c2.total_marks ≤ c1.total_marks)))

/-! ### Concrete instances used by witnesses and counterexamples -/

/-- A question numbered 1, used by the C8 scenario. -/
def c8q1 : AnalyzedQuestion :=
  ⟨"q-one", 1, none, "State the laws.", 3, none, none, some "2022", some "cn.pdf"⟩

/-- A question numbered 3, used by the C8 scenario. -/
def c8q3 : AnalyzedQuestion :=
  ⟨"q-three", 3, none, "Define entropy.", 3, none, none, some "2022", some "cn.pdf"⟩

/-- The C8 scenario pattern `{"Module 1": [1, 2]}`. -/
def c8pattern : ExamPattern := ⟨"Pat", [], [("Module 1", [1, 2])]⟩

/-- A pattern whose only module name is the empty string: feeding it to
the mapper produces an empty (yet non-null) module label. -/
def c8patternEmptyName : ExamPattern := ⟨"Pat", [], [("", [1])]⟩

/-- A question returned by the successful section call of the C2
witness service. -/
def c2q : AnalyzedQuestion :=
  ⟨"c2-a", 1, none, "Explain sorting.", 5, none, none, none, none⟩

/-- A concrete extraction service for the C2 witness: the bulk prompt
fails, the per-section prompt for the first section of
`"2019 alpha 2021 beta"` succeeds, everything else fails. -/
def c2invoke : String → Except Unit QuestionBank := fun s =>
  if s = fallbackPrompt "20" "2019 alpha" then .ok ⟨[c2q]⟩ else .error ()

/-- First question of the C6 scenario: year 2021. -/
def c6qa : AnalyzedQuestion :=
  ⟨"c6-a", 1, none, "Explain TCP handshake.", 3, none, none, some "2021",
   some "cn_2021.pdf"⟩

/-- Second question of the C6 scenario: year 2022, same text. -/
def c6qb : AnalyzedQuestion :=
  ⟨"c6-b", 2, none, "Explain TCP handshake.", 4, none, none, some "2022",
   some "cn_2022.pdf"⟩

/-- Variant of the second C6 question tagged with the same year 2021. -/
def c6qb' : AnalyzedQuestion := { c6qb with year := some "2021" }

/-! ### Theorems

First the claim theorems that need no further machinery, then the
supporting lemma chains for the similarity bound and the clusterer, and
the remaining claim theorems. -/

/-- Claim C1.  The claim says every section label produced by the Text
Segmenter is `default_year` or a four-digit year string found in the
section's first 500 characters.  The code instead reads regex group 1 —
the two-character `(19|20)` alternation — so a section headed by the
year `2021` is labelled `"20"`: a two-character string, neither
`default_year` nor any four-digit year.  This evaluation exhibits the
divergence on a concrete input. -/
theorem claim_C1_eval :
    extract_year_sections "2021 Q1. Explain stacks." "Unknown"
      = [("20", "2021 Q1. Explain stacks.")] ∧
    ("20" : String).length = 2 ∧ ("20" : String) ≠ "Unknown" := by
  refine ⟨by decide, by decide, by decide⟩

/-- Claim C10.  `map_questions_to_modules` returns the input sequence
with the same length and order, and for every question only the
`module` field may change: `id`, `number`, `part`, `text`, `marks`,
`topic`, `year` and `paper_name` are untouched. -/
theorem claim_C10 (qs : List AnalyzedQuestion) (pattern : ExamPattern) :
    (map_questions_to_modules qs pattern).length = qs.length ∧
    ∀ i : Nat,
      ((map_questions_to_modules qs pattern)[i]?.map (·.id)
          = qs[i]?.map (·.id)) ∧
      ((map_questions_to_modules qs pattern)[i]?.map (·.number)
          = qs[i]?.map (·.number)) ∧
      ((map_questions_to_modules qs pattern)[i]?.map (·.part)
          = qs[i]?.map (·.part)) ∧
      ((map_questions_to_modules qs pattern)[i]?.map (·.text)
          = qs[i]?.map (·.text)) ∧
      ((map_questions_to_modules qs pattern)[i]?.map (·.marks)
          = qs[i]?.map (·.marks)) ∧
      ((map_questions_to_modules qs pattern)[i]?.map (·.topic)
          = qs[i]?.map (·.topic)) ∧
      ((map_questions_to_modules qs pattern)[i]?.map (·.year)
          = qs[i]?.map (·.year)) ∧
      ((map_questions_to_modules qs pattern)[i]?.map (·.paper_name)
          = qs[i]?.map (·.paper_name)) := by
  constructor
  · simp [map_questions_to_modules]
  · intro i
    cases h : qs[i]? with
    | none => simp [map_questions_to_modules, List.getElem?_map, h]
    | some q =>
      cases hl : dictLookupLast (buildQToMod pattern.module_mapping) q.number <;>
        simp [map_questions_to_modules, List.getElem?_map, h, hl]

/-! ### Persistence round-trip lemmas -/

/-- Pydantic validation undoes `model_dump` on a question record. -/
theorem decodeQ_dumpQ (q : AnalyzedQuestion) : decodeQ (dumpQ q) = .ok q := by
  rcases q with ⟨qid, number, part, text, marks, module, topic, year, paper⟩
  cases part <;> cases module <;> cases topic <;> cases year <;> cases paper <;> rfl

/-- Worker form of the element-wise round trip, following the
accumulator of `List.mapM.loop`. -/
theorem mapM_loop_decodeQ_dumpQ (qs acc : List AnalyzedQuestion) :
    List.mapM.loop decodeQ (qs.map dumpQ) acc = .ok (acc.reverse ++ qs) := by
  induction qs generalizing acc with
  | nil => simp [List.mapM.loop]; rfl
  | cons q qs ih =>
    simp only [List.map_cons, List.mapM.loop, decodeQ_dumpQ]
    show List.mapM.loop decodeQ (qs.map dumpQ) (q :: acc) = _
    rw [ih]
    simp

/-- Element-wise validation undoes element-wise `model_dump`. -/
theorem mapM_decodeQ_dumpQ (qs : List AnalyzedQuestion) :
    (qs.map dumpQ).mapM decodeQ = .ok qs := by
  show List.mapM.loop decodeQ (qs.map dumpQ) [] = _
  simpa using mapM_loop_decodeQ_dumpQ qs []

/-- Loading the wrapped-object dump of a bank recovers the bank. -/
theorem loadBank_dumpBank (qs : List AnalyzedQuestion) :
    loadBankForSave (.parsed (dumpBank qs)) = ⟨qs⟩ := by
  simp [loadBankForSave, dumpBank, decodeBank, jlookup, List.find?,
    mapM_loop_decodeQ_dumpQ, mapM_decodeQ_dumpQ, bind, Except.bind]

/-- Claim C3.  Saving `L1` and then `L2` on a subject appends them, in
order and without dedup, to the prior bank contents; the persisted file
is the wrapped dump of that sequence, and re-loading it (either through
the save-path loader or through `get_analyzed_questions`) reproduces
exactly the same question sequence — all documented fields ride along
unchanged inside the `AnalyzedQuestion` values. -/
theorem claim_C3 (file : FileState) (L1 L2 : List AnalyzedQuestion) :
    save_analyzed_questions (.parsed (save_analyzed_questions file L1)) L2
        = dumpBank ((loadBankForSave file).questions ++ L1 ++ L2) ∧
    (loadBankForSave (.parsed (save_analyzed_questions
        (.parsed (save_analyzed_questions file L1)) L2))).questions
        = (loadBankForSave file).questions ++ L1 ++ L2 ∧
    get_analyzed_questions (.parsed (save_analyzed_questions
        (.parsed (save_analyzed_questions file L1)) L2))
        = some (.jarr (((loadBankForSave file).questions ++ L1 ++ L2).map
            dumpQ)) := by
  have h1 : save_analyzed_questions (.parsed (save_analyzed_questions file L1)) L2
      = dumpBank ((loadBankForSave file).questions ++ L1 ++ L2) := by
    simp [save_analyzed_questions, loadBank_dumpBank, List.append_assoc]
  refine ⟨h1, ?_, ?_⟩
  · rw [h1, loadBank_dumpBank]
  · rw [h1]; rfl

/-- Claim C7.  A legacy bank persisted as a bare JSON array of question
records and a current bank persisted as a wrapped object whose
`questions` field holds the same records load to equal in-memory
`QuestionBank` values (both equal to the bank of those records). -/
theorem claim_C7 (qs : List AnalyzedQuestion) :
    loadBankForSave (.parsed (.jarr (qs.map dumpQ)))
        = loadBankForSave (.parsed (dumpBank qs)) ∧
    loadBankForSave (.parsed (.jarr (qs.map dumpQ))) = ⟨qs⟩ := by
  have h : loadBankForSave (.parsed (.jarr (qs.map dumpQ))) = ⟨qs⟩ := by
    simp [loadBankForSave, mapM_loop_decodeQ_dumpQ, mapM_decodeQ_dumpQ, bind,
      Except.bind]
  exact ⟨by rw [h, loadBank_dumpBank], h⟩

/-! ### Module mapper: claim C8 -/

/-- Counterexample to claim C8 as stated: with the (legal) pattern whose
only module name is the empty string, the question numbered 1 receives
the empty module label, so the mapper's output is not always non-empty. -/
theorem claim_C8_cex :
    ∃ q' ∈ map_questions_to_modules [c8q1] c8patternEmptyName,
      q'.module = some "" := by decide

/-- Claim C8, amended.  After `map_questions_to_modules`, every
question's `module` is either a module name of `pattern.module_mapping`
claiming that question's number or the literal `"Unknown"`; it is never
`None`, and it is non-empty provided every module name of the mapping is
non-empty (the unamended claim fails when a mapping key is itself the
empty string, see `claim_C8_cex`).  The scenario conjunct: with mapping
`{"Module 1": [1, 2]}` question number 1 receives `"Module 1"` and
question number 3 receives `"Unknown"`. -/
theorem claim_C8 :
    (∀ (qs : List AnalyzedQuestion) (pattern : ExamPattern),
      qs ≠ [] → ∀ q' ∈ map_questions_to_modules qs pattern,
        q'.module ≠ none ∧
        (q'.module = some "Unknown" ∨
          ∃ mn nums, (mn, nums) ∈ pattern.module_mapping ∧
            q'.module = some mn ∧ q'.number ∈ nums) ∧
        ((∀ mn ∈ pattern.module_mapping.map Prod.fst, mn ≠ "") →
          q'.module ≠ some "")) ∧
    (map_questions_to_modules [c8q1, c8q3] c8pattern).map (·.module)
        = [some "Module 1", some "Unknown"] := by
  constructor
  · intro qs pattern _ q' hq'
    simp only [map_questions_to_modules, List.mem_map] at hq'
    obtain ⟨q, -, rfl⟩ := hq'
    cases hl : dictLookupLast (buildQToMod pattern.module_mapping) q.number with
    | none =>
      refine ⟨by simp [hl], Or.inl (by simp [hl]), fun _ => by simp [hl]⟩
    | some m =>
      obtain ⟨e, he, hee⟩ : ∃ e, e ∈ buildQToMod pattern.module_mapping ∧
          e.1 = q.number ∧ e.2 = m := by
        obtain ⟨e, hfind, rfl⟩ := Option.map_eq_some'.mp hl
        refine ⟨e, ?_, ?_, rfl⟩
        · exact (List.mem_reverse).mp (List.mem_of_find?_eq_some hfind)
        · simpa using List.find?_some hfind
      obtain ⟨p, hp, hmem⟩ := List.mem_flatMap.mp he
      obtain ⟨n, hn, rfl⟩ := List.mem_map.mp hmem
      refine ⟨by simp [hl], Or.inr ⟨p.1, p.2, ?_, by simp [hl]; exact hee.2.symm, ?_⟩, ?_⟩
      · simpa using hp
      · simpa [← hee.1] using hn
      · intro hkeys
        have : p.1 ≠ "" := hkeys p.1 (List.mem_map.mpr ⟨p, hp, rfl⟩)
        simp [hl, ← hee.2, this]
  · decide

/-- Witness for claim C8: the scenario instance discharges the
hypotheses of the universal part at `qs = [c8q1, c8q3]`,
`pattern = c8pattern`, and the mapped first question. -/
theorem claim_C8_witness :
    ([c8q1, c8q3] ≠ ([] : List AnalyzedQuestion)) ∧
    ({ c8q1 with module := some "Module 1" }
        ∈ map_questions_to_modules [c8q1, c8q3] c8pattern) ∧
    (({ c8q1 with module := some "Module 1" } : AnalyzedQuestion).module ≠ none ∧
      (({ c8q1 with module := some "Module 1" } : AnalyzedQuestion).module
          = some "Unknown" ∨
        ∃ mn nums, (mn, nums) ∈ c8pattern.module_mapping ∧
          ({ c8q1 with module := some "Module 1" } : AnalyzedQuestion).module
            = some mn ∧
          ({ c8q1 with module := some "Module 1" } : AnalyzedQuestion).number
            ∈ nums) ∧
      ((∀ mn ∈ c8pattern.module_mapping.map Prod.fst, mn ≠ "") →
        ({ c8q1 with module := some "Module 1" } : AnalyzedQuestion).module
          ≠ some "")) :=
  ⟨by decide, by decide,
    claim_C8.1 [c8q1, c8q3] c8pattern (by decide) _ (by decide)⟩

/-! ### Extraction orchestrator: claim C2 -/

/-- Claim C2.  If the bulk whole-document attempt fails, the method
falls back to per-section extraction over the segmenter's sections: the
result is exactly the concatenation of the per-section contributions,
where a failing section contributes nothing (so an error on one section
drops only that section's questions while every other section is still
processed, and nothing is raised past the bulk attempt); consequently,
when every section's call fails, the result is the empty sequence. -/
theorem claim_C2 (invoke : String → Except Unit QuestionBank)
    (text year paper_name : String)
    (h : ∃ e, invoke (bulkPrompt text) = .error e) :
    parse_questions_from_text invoke text year paper_name
        = (extract_year_sections text year).flatMap (fun sec =>
            if pyStrip sec.2.data = [] then []
            else
              match invoke (fallbackPrompt sec.1 sec.2) with
              | .ok sub_result =>
                sub_result.questions.map (fun q =>
                  { q with year := some sec.1, paper_name := some paper_name })
              | .error _ => []) ∧
    ((∀ sec ∈ extract_year_sections text year,
        ∃ e, invoke (fallbackPrompt sec.1 sec.2) = .error e) →
      parse_questions_from_text invoke text year paper_name = []) := by
  obtain ⟨e, he⟩ := h
  have h1 : parse_questions_from_text invoke text year paper_name
      = (extract_year_sections text year).flatMap (fun sec =>
          if pyStrip sec.2.data = [] then []
          else
            match invoke (fallbackPrompt sec.1 sec.2) with
            | .ok sub_result =>
              sub_result.questions.map (fun q =>
                { q with year := some sec.1, paper_name := some paper_name })
            | .error _ => []) := by
    unfold parse_questions_from_text
    rw [he]
  refine ⟨h1, fun hall => ?_⟩
  rw [h1]
  apply List.flatMap_eq_nil_iff.mpr
  intro sec hsec
  obtain ⟨e2, he2⟩ := hall sec hsec
  by_cases hs : pyStrip sec.2.data = []
  · simp [hs]
  · simp only [hs, if_false, he2]

set_option maxRecDepth 40000 in
/-- Witness for claim C2: a concrete service that fails on the bulk
prompt of `"2019 alpha 2021 beta"`, succeeds on the per-section prompt
of its first section and fails on its second; the fallback collects
exactly the surviving section's stamped questions. -/
theorem claim_C2_witness :
    (∃ e, c2invoke (bulkPrompt "2019 alpha 2021 beta") = .error e) ∧
    parse_questions_from_text c2invoke "2019 alpha 2021 beta" "Unknown"
        "cn.pdf"
      = [{ c2q with year := some "20", paper_name := some "cn.pdf" }] :=
  ⟨⟨(), rfl⟩,
    (claim_C2 c2invoke "2019 alpha 2021 beta" "Unknown" "cn.pdf"
        ⟨(), rfl⟩).1.trans (by decide)⟩

/-! ### Similarity: claim C4 counterexample -/

/-- Counterexample to claim C4 as stated: the sequence-matching ratio is
not symmetric.  On the (already normalised) strings `"tide"` and
`"diet"` the matcher finds one matched element in one direction and two
in the other, giving `1/4` against `1/2` — the values of CPython
`difflib.SequenceMatcher(None, "tide", "diet").ratio()` and its
mirror. -/
theorem claim_C4_cex :
    get_similarity "tide" "diet" ≠ get_similarity "diet" "tide" := by
  have h1 : matchesTotal (clean_text "tide").data (clean_text "diet").data
      = 1 := by decide
  have h2 : matchesTotal (clean_text "diet").data (clean_text "tide").data
      = 2 := by decide
  have e1 : (clean_text "tide").data.length = 4 := by decide
  have e2 : (clean_text "diet").data.length = 4 := by decide
  unfold get_similarity ratioQ
  rw [h1, h2, e1, e2]
  norm_num

/-! ### Similarity: the `[0, 1]` bound

The bound follows from the block-structure invariant of
`find_longest_match`: the best block always lies inside the region
`[alo, ahi) × [blo, bhi)`.  The `j2len` row dictionary satisfies the
usual longest-common-substring DP invariant (an entry at `j` is at most
the number of processed rows and at most `j + 1 - blo`), which bounds
the jump `besti := i - k + 1` from below by `alo`. -/

/-- Region invariant of the inner DP loop: it preserves the row bounds
on the accumulating `newj2len` and the block bounds on the running best
state. -/
theorem flmInner_inv (j2len : Nat → Nat) (alo ahi i blo bhi n : Nat)
    (hj2 : ∀ j, j2len j ≤ n ∧
      (j2len j ≠ 0 → blo ≤ j ∧ j < bhi ∧ j2len j ≤ j + 1 - blo))
    (hia : alo ≤ i) (hih : i < ahi) (hn : n ≤ i - alo) (js : List Nat) :
    ∀ (newj2len : Nat → Nat) (st : FLM),
      (∀ j, newj2len j ≤ n + 1 ∧
        (newj2len j ≠ 0 → blo ≤ j ∧ j < bhi ∧ newj2len j ≤ j + 1 - blo)) →
      (alo ≤ st.besti ∧ blo ≤ st.bestj ∧
        st.besti + st.bestsize ≤ ahi ∧ st.bestj + st.bestsize ≤ bhi) →
      (∀ j, (flmInner j2len i blo bhi js newj2len st).1 j ≤ n + 1 ∧
        ((flmInner j2len i blo bhi js newj2len st).1 j ≠ 0 →
          blo ≤ j ∧ j < bhi ∧
          (flmInner j2len i blo bhi js newj2len st).1 j ≤ j + 1 - blo)) ∧
      (alo ≤ (flmInner j2len i blo bhi js newj2len st).2.besti ∧
        blo ≤ (flmInner j2len i blo bhi js newj2len st).2.bestj ∧
        (flmInner j2len i blo bhi js newj2len st).2.besti +
          (flmInner j2len i blo bhi js newj2len st).2.bestsize ≤ ahi ∧
        (flmInner j2len i blo bhi js newj2len st).2.bestj +
          (flmInner j2len i blo bhi js newj2len st).2.bestsize ≤ bhi) := by
  induction js with
  | nil =>
    intro newj2len st hnew hst
    exact ⟨hnew, hst⟩
  | cons j js ih =>
    intro newj2len st hnew hst
    by_cases h1 : j < blo
    · simpa only [flmInner, if_pos h1] using ih newj2len st hnew hst
    · by_cases h2 : bhi ≤ j
      · simpa only [flmInner, if_neg h1, if_pos h2] using ⟨hnew, hst⟩
      · have hjb : blo ≤ j := Nat.le_of_not_lt h1
        have hjh : j < bhi := Nat.lt_of_not_le h2
        have hk1 : (if j = 0 then 0 else j2len (j - 1)) + 1 ≤ n + 1 := by
          by_cases hj0 : j = 0
          · simp [hj0]
          · have := (hj2 (j - 1)).1
            rw [if_neg hj0]
            omega
        have hk2 : (if j = 0 then 0 else j2len (j - 1)) + 1 ≤ j + 1 - blo := by
          by_cases hj0 : j = 0
          · have hblo : blo = 0 := by omega
            simp [hj0, hblo]
          · rw [if_neg hj0]
            rcases Nat.eq_zero_or_pos (j2len (j - 1)) with hz | hp
            · omega
            · have h3 := (hj2 (j - 1)).2 (by omega)
              omega
        simp only [flmInner, if_neg h1, if_neg h2]
        apply ih
        · intro x
          by_cases hx : x = j
          · subst hx
            refine ⟨by simp [hk1], fun _ => ⟨hjb, hjh, by simp [hk2]⟩⟩
          · simpa [hx] using hnew x
        · by_cases hlt :
            st.bestsize < (if j = 0 then 0 else j2len (j - 1)) + 1
          · simp only [if_pos hlt]
            refine ⟨?_, ?_, ?_, ?_⟩ <;> dsimp only <;> omega
          · simpa only [if_neg hlt] using hst

/-- Region invariant of the outer DP loop over the rows
`range' s m` (all of which lie in `[alo, ahi)`). -/
theorem flmOuter_inv (a b : List Char) (alo ahi blo bhi : Nat) :
    ∀ (m s : Nat) (j2len : Nat → Nat) (st : FLM),
      alo ≤ s → s + m ≤ ahi →
      (∀ j, j2len j ≤ s - alo ∧
        (j2len j ≠ 0 → blo ≤ j ∧ j < bhi ∧ j2len j ≤ j + 1 - blo)) →
      (alo ≤ st.besti ∧ blo ≤ st.bestj ∧
        st.besti + st.bestsize ≤ ahi ∧ st.bestj + st.bestsize ≤ bhi) →
      (alo ≤ (flmOuter a b blo bhi (List.range' s m) j2len st).besti ∧
        blo ≤ (flmOuter a b blo bhi (List.range' s m) j2len st).bestj ∧
        (flmOuter a b blo bhi (List.range' s m) j2len st).besti +
          (flmOuter a b blo bhi (List.range' s m) j2len st).bestsize ≤ ahi ∧
        (flmOuter a b blo bhi (List.range' s m) j2len st).bestj +
          (flmOuter a b blo bhi (List.range' s m) j2len st).bestsize ≤ bhi) := by
  intro m
  induction m with
  | zero =>
    intro s j2len st _ _ _ hst
    simpa [flmOuter] using hst
  | succ m ih =>
    intro s j2len st hs hm hj2 hst
    rw [List.range'_succ]
    simp only [flmOuter]
    have step := flmInner_inv j2len alo ahi s blo bhi (s - alo) hj2 hs
      (by omega) (le_refl _) (b2j b (a.getD s ' ')) (fun _ => 0)
      st (fun j => ⟨Nat.zero_le _, fun hz => absurd rfl hz⟩) hst
    apply ih (s + 1) _ _ (by omega) (by omega)
    · intro j
      have := step.1 j
      constructor
      · omega
      · exact fun hz => (this.2 hz).imp id (fun h => h.imp id (by omega))
    · exact step.2

/-- The backwards extension loop keeps the best block inside the
region. -/
theorem extendBackGo_inv (a b : List Char) (alo blo ahi bhi : Nat) :
    ∀ (fuel : Nat) (st : FLM),
      (alo ≤ st.besti ∧ blo ≤ st.bestj ∧
        st.besti + st.bestsize ≤ ahi ∧ st.bestj + st.bestsize ≤ bhi) →
      (alo ≤ (extendBackGo a b alo blo fuel st).besti ∧
        blo ≤ (extendBackGo a b alo blo fuel st).bestj ∧
        (extendBackGo a b alo blo fuel st).besti +
          (extendBackGo a b alo blo fuel st).bestsize ≤ ahi ∧
        (extendBackGo a b alo blo fuel st).bestj +
          (extendBackGo a b alo blo fuel st).bestsize ≤ bhi) := by
  intro fuel
  induction fuel with
  | zero => intro st hst; simpa [extendBackGo] using hst
  | succ fuel ih =>
    intro st hst
    by_cases h : alo < st.besti ∧ blo < st.bestj ∧
        a.getD (st.besti - 1) ' ' = b.getD (st.bestj - 1) ' '
    · simp only [extendBackGo, if_pos h]
      exact ih _ (by obtain ⟨h1, h2, h3⟩ := h; refine ⟨?_, ?_, ?_, ?_⟩ <;>
        dsimp only <;> omega)
    · simpa only [extendBackGo, if_neg h] using hst

/-- The forwards extension loop keeps the best block inside the
region. -/
theorem extendFwdGo_inv (a b : List Char) (ahi bhi alo blo : Nat) :
    ∀ (fuel : Nat) (st : FLM),
      (alo ≤ st.besti ∧ blo ≤ st.bestj ∧
        st.besti + st.bestsize ≤ ahi ∧ st.bestj + st.bestsize ≤ bhi) →
      (alo ≤ (extendFwdGo a b ahi bhi fuel st).besti ∧
        blo ≤ (extendFwdGo a b ahi bhi fuel st).bestj ∧
        (extendFwdGo a b ahi bhi fuel st).besti +
          (extendFwdGo a b ahi bhi fuel st).bestsize ≤ ahi ∧
        (extendFwdGo a b ahi bhi fuel st).bestj +
          (extendFwdGo a b ahi bhi fuel st).bestsize ≤ bhi) := by
  intro fuel
  induction fuel with
  | zero => intro st hst; simpa [extendFwdGo] using hst
  | succ fuel ih =>
    intro st hst
    by_cases h : st.besti + st.bestsize < ahi ∧ st.bestj + st.bestsize < bhi ∧
        a.getD (st.besti + st.bestsize) ' ' = b.getD (st.bestj + st.bestsize) ' '
    · simp only [extendFwdGo, if_pos h]
      exact ih _ (by obtain ⟨h1, h2, h3⟩ := h; refine ⟨?_, ?_, ?_, ?_⟩ <;>
        dsimp only <;> omega)
    · simpa only [extendFwdGo, if_neg h] using hst

/-- The best block returned by `find_longest_match` lies inside the
region `[alo, ahi) × [blo, bhi)` (whenever the region is well formed). -/
theorem find_longest_match_inv (a b : List Char) (alo ahi blo bhi : Nat)
    (h1 : alo ≤ ahi) (h2 : blo ≤ bhi) :
    alo ≤ (find_longest_match a b alo ahi blo bhi).besti ∧
    blo ≤ (find_longest_match a b alo ahi blo bhi).bestj ∧
    (find_longest_match a b alo ahi blo bhi).besti +
      (find_longest_match a b alo ahi blo bhi).bestsize ≤ ahi ∧
    (find_longest_match a b alo ahi blo bhi).bestj +
      (find_longest_match a b alo ahi blo bhi).bestsize ≤ bhi := by
  unfold find_longest_match extendBack extendFwd
  apply extendFwdGo_inv
  apply extendBackGo_inv
  apply flmOuter_inv a b alo ahi blo bhi (ahi - alo) alo (fun _ => 0)
    ⟨alo, blo, 0⟩ (le_refl _) (by omega)
    (fun j => ⟨Nat.zero_le _, fun hz => absurd rfl hz⟩)
    ⟨le_refl _, le_refl _, by dsimp only; omega, by dsimp only; omega⟩

/-- The sizes of the matching blocks of a region sum to at most each of
the region's two side lengths. -/
theorem matchBlocksF_sizes_le (a b : List Char) :
    ∀ (fuel alo ahi blo bhi : Nat), alo ≤ ahi → blo ≤ bhi →
      ((matchBlocksF a b fuel alo ahi blo bhi).map (fun t => t.2.2)).sum
          ≤ ahi - alo ∧
      ((matchBlocksF a b fuel alo ahi blo bhi).map (fun t => t.2.2)).sum
          ≤ bhi - blo := by
  intro fuel
  induction fuel with
  | zero => intro alo ahi blo bhi _ _; simp [matchBlocksF]
  | succ fuel ih =>
    intro alo ahi blo bhi h1 h2
    have inv := find_longest_match_inv a b alo ahi blo bhi h1 h2
    by_cases hz : (find_longest_match a b alo ahi blo bhi).bestsize = 0
    · simp [matchBlocksF, hz]
    · have left := ih alo (find_longest_match a b alo ahi blo bhi).besti
        blo (find_longest_match a b alo ahi blo bhi).bestj
        inv.1 inv.2.1
      have right := ih
        ((find_longest_match a b alo ahi blo bhi).besti +
          (find_longest_match a b alo ahi blo bhi).bestsize) ahi
        ((find_longest_match a b alo ahi blo bhi).bestj +
          (find_longest_match a b alo ahi blo bhi).bestsize) bhi
        inv.2.2.1 inv.2.2.2
      simp only [matchBlocksF, if_neg hz, List.map_append, List.sum_append,
        List.map_cons, List.sum_cons, List.map_nil, List.sum_nil]
      omega

/-- The matched-element total is at most each string length. -/
theorem matchesTotal_le (a b : List Char) :
    matchesTotal a b ≤ a.length ∧ matchesTotal a b ≤ b.length := by
  simpa [matchesTotal, matching_blocks] using
    matchBlocksF_sizes_le a b (a.length + b.length + 1) 0 a.length 0 b.length
      (Nat.zero_le _) (Nat.zero_le _)

/-- Claim C4, amended.  For every pair of strings the similarity lies in
the closed interval `[0, 1]`.  (The symmetry half of the original claim
fails: see `claim_C4_cex`.) -/
theorem claim_C4 (s1 s2 : String) :
    0 ≤ get_similarity s1 s2 ∧ get_similarity s1 s2 ≤ 1 := by
  unfold get_similarity ratioQ
  set a := (clean_text s1).data with ha
  set b := (clean_text s2).data with hb
  by_cases h : a.length + b.length = 0
  · rw [if_pos h]
    norm_num
  · rw [if_neg h]
    have hM := matchesTotal_le a b
    have hT : (0 : ℚ) < (a.length : ℚ) + (b.length : ℚ) := by
      have hp : 0 < a.length + b.length := Nat.pos_of_ne_zero h
      exact_mod_cast hp
    refine ⟨div_nonneg (mul_nonneg (by norm_num) (Nat.cast_nonneg _)) hT.le, ?_⟩
    rw [div_le_one hT]
    have h2M : 2 * matchesTotal a b ≤ a.length + b.length := by omega
    calc (2 : ℚ) * (matchesTotal a b : ℚ)
        = ((2 * matchesTotal a b : ℕ) : ℚ) := by push_cast; ring
      _ ≤ ((a.length + b.length : ℕ) : ℚ) := by exact_mod_cast h2M
      _ = (a.length : ℚ) + (b.length : ℚ) := by push_cast; ring

/-! ### Clusterer: the year-count invariant and claim C6 -/

/-- Conditional insertion grows a set by at most one element. -/
theorem truthyInsert_card_le (o : Option String) (s : Finset String) :
    (truthyInsert o s).card ≤ s.card + 1 := by
  cases o with
  | none => simp [truthyInsert]
  | some v =>
    by_cases hv : v = ""
    · simp [truthyInsert, hv]
    · simpa [truthyInsert, hv] using Finset.card_insert_le v s

/-- The inner scan adds at least one member per year it adds. -/
theorem clusterScan_years_le (t : ℚ) (i : Nat) (q1 : AnalyzedQuestion) :
    ∀ (L : List (Nat × AnalyzedQuestion)) (c : Cluster) (p : List String),
      (clusterScan t i q1 L c p).1.years.card + c.questions.length ≤
        c.years.card + (clusterScan t i q1 L c p).1.questions.length := by
  intro L
  induction L with
  | nil => intro c p; simp [clusterScan]
  | cons e L ih =>
    intro c p
    obtain ⟨j, q2⟩ := e
    by_cases h1 : i = j ∨ q2.id ∈ p
    · simpa [clusterScan, h1] using ih c p
    · by_cases h2 : t ≤ get_similarity q1.text q2.text
      · have step := ih
          { text := c.text, questions := c.questions ++ [q2],
            years := truthyInsert q2.year c.years,
            total_marks := c.total_marks + q2.marks,
            modules := truthyInsert q2.module c.modules } (q2.id :: p)
        have hins := truthyInsert_card_le q2.year c.years
        simp only [clusterScan, if_neg h1, if_pos h2]
        simp only [List.length_append, List.length_cons, List.length_nil] at step ⊢
        omega
      · simpa [clusterScan, h1, h2] using ih c p

/-- Every cluster produced by the outer loop has at most as many
distinct years as members. -/
theorem clusterOuter_years_le (t : ℚ) (all : List (Nat × AnalyzedQuestion)) :
    ∀ (rest : List (Nat × AnalyzedQuestion)) (p : List String) (c : Cluster),
      c ∈ clusterOuter t all rest p → c.years.card ≤ c.questions.length := by
  intro rest
  induction rest with
  | nil => intro p c hc; simp [clusterOuter] at hc
  | cons e rest ih =>
    intro p c hc
    obtain ⟨i, q1⟩ := e
    by_cases h1 : q1.id ∈ p
    · exact ih _ c (by simpa [clusterOuter, h1] using hc)
    · simp only [clusterOuter, if_neg h1, List.mem_cons] at hc
      rcases hc with rfl | hc
      · have step := clusterScan_years_le t i q1 all
          { text := q1.text, questions := [q1], years := truthySet q1.year,
            total_marks := q1.marks, modules := truthySet q1.module }
          (q1.id :: p)
        have hseed : (truthySet q1.year).card ≤ 1 := by
          cases hy : q1.year with
          | none => simp [truthySet]
          | some v =>
            by_cases hv : v = "" <;> simp [truthySet, hv]
        simp only [List.length_cons, List.length_nil] at step
        omega
      · exact ih _ c hc

/-- Every cluster of `cluster_similar_questions` has at most as many
distinct years as members. -/
theorem cluster_years_le_members (qs : List AnalyzedQuestion) (t : ℚ)
    (c : Cluster) (hc : c ∈ cluster_similar_questions qs t) :
    c.years.card ≤ c.questions.length := by
  exact clusterOuter_years_le t _ _ _ c hc

/-- Claim C6.  A cluster of the threshold-`0.8` clustering appears in
the high-yield (repeated questions) view exactly when its members span
more than one distinct year: the view keeps clusters with more than one
member and more than one year, and more than one year already forces
more than one member. -/
theorem claim_C6 (qs : List AnalyzedQuestion) (c : Cluster)
    (hc : c ∈ cluster_similar_questions qs (8 / 10 : ℚ)) :
    c ∈ analyze_repeated_questions qs ↔ 1 < c.years.card := by
  unfold analyze_repeated_questions
  rw [List.mem_mergeSort, List.mem_filter]
  constructor
  · rintro ⟨-, hpred⟩
    simp only [Bool.and_eq_true, decide_eq_true_eq] at hpred
    exact hpred.2
  · intro hy
    refine ⟨hc, ?_⟩
    have hlen := cluster_years_le_members qs _ c hc
    simp only [Bool.and_eq_true, decide_eq_true_eq]
    exact ⟨by omega, hy⟩

set_option maxRecDepth 40000 in
/-- The similarity of the identical C6 scenario texts is `1`, hence at
least the `0.8` threshold. -/
theorem c6_sim_ge : (8 / 10 : ℚ) ≤ get_similarity c6qa.text c6qb.text := by
  have h1 : matchesTotal (clean_text c6qa.text).data (clean_text c6qb.text).data
      = 21 := by decide
  have e1 : (clean_text c6qa.text).data.length = 21 := by decide
  have e2 : (clean_text c6qb.text).data.length = 21 := by decide
  unfold get_similarity ratioQ
  rw [h1, e1, e2]
  norm_num

/-- Evaluation of the clusterer on the distinct-year C6 scenario: the
two questions form one cluster spanning both years. -/
theorem c6_clusters_eval :
    cluster_similar_questions [c6qa, c6qb] (8 / 10 : ℚ)
      = [⟨c6qa.text, [c6qa, c6qb], insert "2022" {"2021"},
          c6qa.marks + c6qb.marks, ∅⟩] := by
  have hs : sortByLenDesc [c6qa, c6qb] = [c6qa, c6qb] := by
    apply List.mergeSort_of_sorted
    decide
  unfold cluster_similar_questions
  rw [hs]
  show clusterOuter (8 / 10 : ℚ) [(0, c6qa), (1, c6qb)]
    [(0, c6qa), (1, c6qb)] [] = _
  have hcond := c6_sim_ge
  simp +decide [clusterOuter, clusterScan, hcond, truthyInsert, truthySet]

/-- The same pair both tagged 2021 still forms one cluster, but with a
single year. -/
theorem c6_clusters_eval' :
    cluster_similar_questions [c6qa, c6qb'] (8 / 10 : ℚ)
      = [⟨c6qa.text, [c6qa, c6qb'], {"2021"},
          c6qa.marks + c6qb'.marks, ∅⟩] := by
  have hsim : (8 / 10 : ℚ) ≤ get_similarity c6qa.text c6qb'.text := c6_sim_ge
  have hs : sortByLenDesc [c6qa, c6qb'] = [c6qa, c6qb'] := by
    apply List.mergeSort_of_sorted
    decide
  unfold cluster_similar_questions
  rw [hs]
  show clusterOuter (8 / 10 : ℚ) [(0, c6qa), (1, c6qb')]
    [(0, c6qa), (1, c6qb')] [] = _
  simp +decide [clusterOuter, clusterScan, hsim, truthyInsert, truthySet]

/-- Witness for claim C6: the spec scenario.  Two similar questions from
years 2021 and 2022 cluster together and the view shows the cluster
(distinct years); the same two questions both tagged 2021 cluster
together but are excluded from the view (single year). -/
theorem claim_C6_witness :
    ((⟨c6qa.text, [c6qa, c6qb], insert "2022" {"2021"},
        c6qa.marks + c6qb.marks, ∅⟩ : Cluster)
      ∈ cluster_similar_questions [c6qa, c6qb] (8 / 10 : ℚ)) ∧
    ((⟨c6qa.text, [c6qa, c6qb], insert "2022" {"2021"},
        c6qa.marks + c6qb.marks, ∅⟩ : Cluster)
        ∈ analyze_repeated_questions [c6qa, c6qb] ↔
      1 < (insert "2022" ({"2021"} : Finset String)).card) ∧
    (1 < (insert "2022" ({"2021"} : Finset String)).card) ∧
    ((⟨c6qa.text, [c6qa, c6qb'], {"2021"},
        c6qa.marks + c6qb'.marks, ∅⟩ : Cluster)
      ∈ cluster_similar_questions [c6qa, c6qb'] (8 / 10 : ℚ)) ∧
    ((⟨c6qa.text, [c6qa, c6qb'], {"2021"},
        c6qa.marks + c6qb'.marks, ∅⟩ : Cluster)
        ∈ analyze_repeated_questions [c6qa, c6qb'] ↔
      1 < ({"2021"} : Finset String).card) ∧
    ¬ (1 < ({"2021"} : Finset String).card) :=
  ⟨by rw [c6_clusters_eval]; exact List.mem_singleton.mpr rfl,
    claim_C6 [c6qa, c6qb] _
      (by rw [c6_clusters_eval]; exact List.mem_singleton.mpr rfl),
    by decide,
    by rw [c6_clusters_eval']; exact List.mem_singleton.mpr rfl,
    claim_C6 [c6qa, c6qb'] _
      (by rw [c6_clusters_eval']; exact List.mem_singleton.mpr rfl),
    by decide⟩

/-! ### Clusterer: structure of one scan and the partition property -/

/-- Structure of one inner scan: it appends to the cluster a list `A`
of attached questions, each taken from an entry of the scanned list
whose index differs from the seed's and whose id was unprocessed at
entry, records exactly the ids of `A` (newest first) on top of the
processed list, leaves the representative text unchanged, and never
attaches the same id twice. -/
theorem clusterScan_struct (t : ℚ) (i : Nat) (q1 : AnalyzedQuestion) :
    ∀ (L : List (Nat × AnalyzedQuestion)) (c : Cluster) (p : List String),
      ∃ A : List AnalyzedQuestion,
        (clusterScan t i q1 L c p).1.questions = c.questions ++ A ∧
        (clusterScan t i q1 L c p).1.text = c.text ∧
        (clusterScan t i q1 L c p).2 = (A.map (fun q => q.id)).reverse ++ p ∧
        ((A.map (fun q => q.id)).Nodup) ∧
        (∀ q2 ∈ A, q2.id ∉ p ∧ ∃ j, (j, q2) ∈ L ∧ j ≠ i) := by
  intro L
  induction L with
  | nil =>
    intro c p
    exact ⟨[], by simp [clusterScan], by simp [clusterScan],
      by simp [clusterScan], by simp, by simp⟩
  | cons e L ih =>
    intro c p
    obtain ⟨j, q2⟩ := e
    by_cases h1 : i = j ∨ q2.id ∈ p
    · obtain ⟨A, hq, ht, hp, hnd, hmem⟩ := ih c p
      refine ⟨A, by simpa [clusterScan, h1] using hq,
        by simpa [clusterScan, h1] using ht,
        by simpa [clusterScan, h1] using hp, hnd, ?_⟩
      intro q hq2
      obtain ⟨hid, j', hj', hne⟩ := hmem q hq2
      exact ⟨hid, j', List.mem_cons_of_mem _ hj', hne⟩
    · by_cases h2 : t ≤ get_similarity q1.text q2.text
      · obtain ⟨A, hq, ht, hp, hnd, hmem⟩ := ih
          { text := c.text, questions := c.questions ++ [q2],
            years := truthyInsert q2.year c.years,
            total_marks := c.total_marks + q2.marks,
            modules := truthyInsert q2.module c.modules } (q2.id :: p)
        have hne : ¬ i = j := fun h => h1 (Or.inl h)
        have hid2 : q2.id ∉ p := fun h => h1 (Or.inr h)
        refine ⟨q2 :: A, ?_, ?_, ?_, ?_, ?_⟩
        · simp only [clusterScan, if_neg h1, if_pos h2]
          simpa [List.append_assoc] using hq
        · simpa only [clusterScan, if_neg h1, if_pos h2] using ht
        · simp only [clusterScan, if_neg h1, if_pos h2]
          rw [hp]
          simp
        · simp only [List.map_cons, List.nodup_cons]
          refine ⟨?_, hnd⟩
          intro hin
          obtain ⟨a, ha, haid⟩ := List.mem_map.mp hin
          exact (hmem a ha).1 (haid ▸ List.mem_cons_self _ _)
        · intro q hqmem
          rcases List.mem_cons.mp hqmem with rfl | hqA
          · exact ⟨hid2, j, List.mem_cons_self _ _, fun hij => hne hij.symm⟩
          · obtain ⟨hid, j', hj', hne'⟩ := hmem q hqA
            exact ⟨fun hin => hid (List.mem_cons_of_mem _ hin), j',
              List.mem_cons_of_mem _ hj', hne'⟩
      · obtain ⟨A, hq, ht, hp, hnd, hmem⟩ := ih c p
        refine ⟨A, by simpa [clusterScan, h1, h2] using hq,
          by simpa [clusterScan, h1, h2] using ht,
          by simpa [clusterScan, h1, h2] using hp, hnd, ?_⟩
        intro q hq2
        obtain ⟨hid, j', hj', hne⟩ := hmem q hq2
        exact ⟨hid, j', List.mem_cons_of_mem _ hj', hne⟩

/-- Join characterisation of the outer loop under pairwise-distinct
ids: the questions collected across all emitted clusters are exactly
the values of the scanned list whose id is unprocessed (provided every
entry is either still to be visited or already processed), with no
value collected twice. -/
theorem clusterOuter_join_char (t : ℚ) (E : List (Nat × AnalyzedQuestion))
    (hids : (E.map (fun e => e.2.id)).Nodup) :
    ∀ (rest : List (Nat × AnalyzedQuestion)) (p : List String),
      (∀ e ∈ rest, e ∈ E) →
      (∀ e ∈ E, e ∈ rest ∨ e.2.id ∈ p) →
      ((∀ q : AnalyzedQuestion,
        q ∈ (clusterOuter t E rest p).flatMap (fun c => c.questions) ↔
          ((∃ j, (j, q) ∈ E) ∧ q.id ∉ p)) ∧
      ((clusterOuter t E rest p).flatMap (fun c => c.questions)).Nodup) := by
  intro rest
  induction rest with
  | nil =>
    intro p _ hall
    constructor
    · intro q
      simp only [clusterOuter, List.flatMap_nil, List.not_mem_nil, false_iff]
      rintro ⟨⟨j, hj⟩, hid⟩
      rcases hall (j, q) hj with h | h
      · exact List.not_mem_nil _ h
      · exact hid h
    · simp [clusterOuter]
  | cons e rest ih =>
    intro p hrest hall
    obtain ⟨i, q1⟩ := e
    by_cases h1 : q1.id ∈ p
    · have step := ih p (fun e he => hrest e (List.mem_cons_of_mem _ he))
        (fun e he => by
          rcases hall e he with h | h
          · rcases List.mem_cons.mp h with rfl | h
            · exact Or.inr h1
            · exact Or.inl h
          · exact Or.inr h)
      constructor
      · intro q
        rw [show clusterOuter t E ((i, q1) :: rest) p
            = clusterOuter t E rest p by simp [clusterOuter, h1]]
        exact step.1 q
      · rw [show clusterOuter t E ((i, q1) :: rest) p
            = clusterOuter t E rest p by simp [clusterOuter, h1]]
        exact step.2
    · -- q1 seeds a new cluster
      obtain ⟨A, hq, ht, hp, hndA, hmem⟩ := clusterScan_struct t i q1 E
        { text := q1.text, questions := [q1], years := truthySet q1.year,
          total_marks := q1.marks, modules := truthySet q1.module }
        (q1.id :: p)
      have hq1E : (i, q1) ∈ E := hrest _ (List.mem_cons_self _ _)
      have hinj := List.inj_on_of_nodup_map hids
      -- the processed list after the scan
      have hsub : ∀ x, x ∈ (q1.id :: p) →
          x ∈ (clusterScan t i q1 E
            { text := q1.text, questions := [q1], years := truthySet q1.year,
              total_marks := q1.marks, modules := truthySet q1.module }
            (q1.id :: p)).2 := by
        intro x hx
        rw [hp]
        exact List.mem_append_right _ hx
      have hstep := ih (clusterScan t i q1 E
          { text := q1.text, questions := [q1], years := truthySet q1.year,
            total_marks := q1.marks, modules := truthySet q1.module }
          (q1.id :: p)).2
        (fun e he => hrest e (List.mem_cons_of_mem _ he))
        (fun e he => by
          rcases hall e he with h | h
          · rcases List.mem_cons.mp h with rfl | h
            · exact Or.inr (hsub _ (List.mem_cons_self _ _))
            · exact Or.inl h
          · exact Or.inr (hsub _ (List.mem_cons_of_mem _ h)))
      have hout : clusterOuter t E ((i, q1) :: rest) p
          = (clusterScan t i q1 E
              { text := q1.text, questions := [q1],
                years := truthySet q1.year, total_marks := q1.marks,
                modules := truthySet q1.module } (q1.id :: p)).1 ::
            clusterOuter t E rest (clusterScan t i q1 E
              { text := q1.text, questions := [q1],
                years := truthySet q1.year, total_marks := q1.marks,
                modules := truthySet q1.module } (q1.id :: p)).2 := by
        simp [clusterOuter, h1]
      constructor
      · intro q
        rw [hout]
        simp only [List.flatMap_cons, List.mem_append]
        rw [hq]
        constructor
        · rintro (hin | hin)
          · rcases List.mem_append.mp hin with hin | hin
            · rcases List.mem_singleton.mp hin with rfl
              exact ⟨⟨i, hq1E⟩, h1⟩
            · obtain ⟨hid, j, hj, -⟩ := hmem q hin
              exact ⟨⟨j, hj⟩, fun hin2 => hid (List.mem_cons_of_mem _ hin2)⟩
          · obtain ⟨hE, hid⟩ := (hstep.1 q).mp hin
            exact ⟨hE, fun hin2 => hid (hsub _ (List.mem_cons_of_mem _ hin2))⟩
        · rintro ⟨⟨j, hj⟩, hid⟩
          by_cases hin2 : q.id ∈ (clusterScan t i q1 E
              { text := q1.text, questions := [q1],
                years := truthySet q1.year, total_marks := q1.marks,
                modules := truthySet q1.module } (q1.id :: p)).2
          · -- the id was processed during this scan: q is the seed or in A
            rw [hp] at hin2
            rcases List.mem_append.mp hin2 with hin2 | hin2
            · rw [List.mem_reverse] at hin2
              obtain ⟨a, ha, haid⟩ := List.mem_map.mp hin2
              obtain ⟨-, j', hj', -⟩ := hmem a ha
              have : (j', a) = (j, q) := hinj hj' hj (by simpa using haid)
              have haq : a = q := congrArg Prod.snd this
              exact Or.inl (List.mem_append_right _ (haq ▸ ha))
            · rcases List.mem_cons.mp hin2 with hq1 | hin2
              · have : (i, q1) = (j, q) := hinj hq1E hj (by simpa using hq1.symm)
                have : q1 = q := congrArg Prod.snd this
                exact Or.inl (List.mem_append_left _ (by simp [← this]))
              · exact absurd hin2 hid
          · exact Or.inr ((hstep.1 q).mpr ⟨⟨j, hj⟩, hin2⟩)
      · rw [hout]
        simp only [List.flatMap_cons]
        rw [hq]
        have hnd1 : (([q1] ++ A).map (fun q => q.id)).Nodup := by
          simp only [List.map_append, List.map_cons, List.map_nil,
            List.singleton_append, List.nodup_cons]
          refine ⟨?_, hndA⟩
          intro hin
          obtain ⟨a, ha, haid⟩ := List.mem_map.mp hin
          exact (hmem a ha).1 (haid ▸ List.mem_cons_self _ _)
        refine List.Nodup.append (List.Nodup.of_map _ hnd1) hstep.2 ?_
        intro x hx hx2
        have hxid := (hstep.1 x).mp hx2
        apply hxid.2
        rw [hp]
        rcases List.mem_append.mp hx with hx | hx
        · rcases List.mem_singleton.mp hx with rfl
          exact List.mem_append_right _ (List.mem_cons_self _ _)
        · exact List.mem_append_left _
            (List.mem_reverse.mpr (List.mem_map_of_mem _ hx))

/-- Claim C9.  When the input questions have pairwise-distinct ids, the
clusters partition the input: the concatenation of all member lists is
a permutation of the input (so every input question appears in the
member list of exactly one cluster), and no two distinct clusters share
a member. -/
theorem claim_C9 (qs : List AnalyzedQuestion) (t : ℚ)
    (h : (qs.map (fun q => q.id)).Nodup) :
    (((cluster_similar_questions qs t).flatMap
        (fun c => c.questions)).Perm qs) ∧
    (cluster_similar_questions qs t).Pairwise
      (fun c1 c2 => ∀ q, q ∈ c1.questions → q ∉ c2.questions) := by
  have hperm : sortByLenDesc qs |>.Perm qs := List.mergeSort_perm qs _
  have hsortedids : ((sortByLenDesc qs).map (fun q => q.id)).Nodup :=
    ((hperm.map (fun q => q.id)).nodup_iff).mpr h
  have hqsnodup : qs.Nodup := List.Nodup.of_map _ h
  have hEids : (((sortByLenDesc qs).enum).map (fun e => e.2.id)).Nodup := by
    have h2 : ((sortByLenDesc qs).enum).map (fun e => e.2.id)
        = (((sortByLenDesc qs).enum).map Prod.snd).map (fun q => q.id) :=
      (List.map_map _ _ _).symm
    rw [h2, List.enum_map_snd]
    exact hsortedids
  have main := clusterOuter_join_char t ((sortByLenDesc qs).enum) hEids
    ((sortByLenDesc qs).enum) [] (fun e he => he) (fun e he => Or.inl he)
  have hmem : ∀ q : AnalyzedQuestion,
      q ∈ (cluster_similar_questions qs t).flatMap (fun c => c.questions) ↔
        q ∈ qs := by
    intro q
    rw [show cluster_similar_questions qs t
        = clusterOuter t ((sortByLenDesc qs).enum) ((sortByLenDesc qs).enum)
            [] from rfl]
    rw [main.1 q]
    constructor
    · rintro ⟨⟨j, hj⟩, -⟩
      have := List.mk_mem_enum_iff_getElem?.mp hj
      exact hperm.mem_iff.mp (List.mem_iff_getElem?.mpr ⟨j, this⟩)
    · intro hq
      obtain ⟨j, hj⟩ := List.mem_iff_getElem?.mp (hperm.mem_iff.mpr hq)
      exact ⟨⟨j, List.mk_mem_enum_iff_getElem?.mpr hj⟩, List.not_mem_nil _⟩
  have hnd : ((cluster_similar_questions qs t).flatMap
      (fun c => c.questions)).Nodup := by
    rw [show cluster_similar_questions qs t
        = clusterOuter t ((sortByLenDesc qs).enum) ((sortByLenDesc qs).enum)
            [] from rfl]
    exact main.2
  constructor
  · exact (List.perm_ext_iff_of_nodup hnd hqsnodup).mpr hmem
  · have := (List.nodup_flatMap).mp hnd
    exact this.2.imp (fun hd q hq1 hq2 => hd hq1 hq2)

/-- Witness for claim C9: the two concrete scenario questions have
distinct ids, so their clusters partition them. -/
theorem claim_C9_witness :
    (([c6qa, c6qb].map (fun q => q.id)).Nodup) ∧
    ((((cluster_similar_questions [c6qa, c6qb] (8 / 10 : ℚ)).flatMap
        (fun c => c.questions)).Perm [c6qa, c6qb]) ∧
      (cluster_similar_questions [c6qa, c6qb] (8 / 10 : ℚ)).Pairwise
        (fun c1 c2 => ∀ q, q ∈ c1.questions → q ∉ c2.questions)) :=
  ⟨by decide, claim_C9 [c6qa, c6qb] (8 / 10 : ℚ) (by decide)⟩

/-! ### Clusterer: representative selection and cluster order (claim C5) -/

/-- Two positions of a list, in order, form a two-element sublist. -/
theorem pair_sublist_of_lt {α : Type u} :
    ∀ (l : List α) (i j : Nat) (hi : i < l.length) (hj : j < l.length),
      i < j → ([l.get ⟨i, hi⟩, l.get ⟨j, hj⟩]).Sublist l
  | [], _, _, hi, _, _ => absurd hi (by simp)
  | _ :: _, _, 0, _, _, hij => absurd hij (by omega)
  | x :: xs, 0, j + 1, hi, hj, _ =>
    List.Sublist.cons₂ x
      (List.singleton_sublist.mpr (List.get_mem xs j (by simpa using hj)))
  | x :: xs, i + 1, j + 1, hi, hj, hij =>
    List.Sublist.cons x
      (pair_sublist_of_lt xs i j (by simpa using hi) (by simpa using hj)
        (by omega))

/-- The descending-length comparison is transitive. -/
theorem lenDescLe_trans : ∀ (a b c : AnalyzedQuestion),
    (fun a b : AnalyzedQuestion => decide (b.text.length ≤ a.text.length)) a b
      = true →
    (fun a b : AnalyzedQuestion => decide (b.text.length ≤ a.text.length)) b c
      = true →
    (fun a b : AnalyzedQuestion => decide (b.text.length ≤ a.text.length)) a c
      = true := by
  intro a b c
  simp only [decide_eq_true_eq]
  omega

/-- The descending-length comparison is total. -/
theorem lenDescLe_total : ∀ (a b : AnalyzedQuestion),
    ((fun a b : AnalyzedQuestion => decide (b.text.length ≤ a.text.length)) a b
      || (fun a b : AnalyzedQuestion =>
            decide (b.text.length ≤ a.text.length)) b a) = true := by
  intro a b
  simp only [Bool.or_eq_true, decide_eq_true_eq]
  omega

/-- Stability of the stable sort on a single key class: filtering the
sorted list by a predicate on which the comparison is constantly true
gives the same list as filtering the input, so the relative order of
equal-length questions is preserved. -/
theorem mergeSort_filter_class (qs : List AnalyzedQuestion)
    (p : AnalyzedQuestion → Bool)
    (hclass : ∀ x y, p x = true → p y = true →
      (fun a b : AnalyzedQuestion =>
        decide (b.text.length ≤ a.text.length)) x y = true) :
    (sortByLenDesc qs).filter p = qs.filter p := by
  have hF : (qs.filter p).Pairwise (fun a b =>
      (fun a b : AnalyzedQuestion =>
        decide (b.text.length ≤ a.text.length)) a b = true) :=
    List.pairwise_of_forall_mem_list (fun a ha b hb =>
      hclass a b (List.of_mem_filter ha) (List.of_mem_filter hb))
  have hsub : (qs.filter p).Sublist (sortByLenDesc qs) :=
    List.sublist_mergeSort lenDescLe_trans lenDescLe_total hF
      (List.filter_sublist qs)
  have hsub2 : (qs.filter p).Sublist ((sortByLenDesc qs).filter p) := by
    have h2 := List.Sublist.filter p hsub
    rwa [List.filter_filter, show (fun a => p a && p a) = p by
      funext a; exact Bool.and_self (p a)] at h2
  have hlen : ((sortByLenDesc qs).filter p).length = (qs.filter p).length :=
    ((List.mergeSort_perm qs _).filter p).length_eq
  exact (hsub2.eq_of_length hlen.symm).symm

/-- Positional characterisation of the outer loop: over the enumerated
sorted list with the prefix before position `m` fully processed, the
emitted clusters are seeded at strictly increasing positions `≥ m`; each
cluster's text is its seed's text, the seed is a member, and every
member sits at the seed's position or strictly later in the sorted
list. -/
theorem clusterOuter_seeds (t : ℚ) (sorted : List AnalyzedQuestion) :
    ∀ (n m : Nat) (p : List String), sorted.length - m ≤ n →
      (∀ k (hk : k < sorted.length), k < m → (sorted.get ⟨k, hk⟩).id ∈ p) →
      ∃ idxs : List Nat,
        idxs.Chain' (· < ·) ∧
        (∀ x ∈ idxs, m ≤ x) ∧
        List.Forall₂ (fun (c : Cluster) (i : Nat) =>
            ∃ hi : i < sorted.length,
              c.text = (sorted.get ⟨i, hi⟩).text ∧
              sorted.get ⟨i, hi⟩ ∈ c.questions ∧
              ∀ q ∈ c.questions, q = sorted.get ⟨i, hi⟩ ∨
                ∃ j, ∃ hj : j < sorted.length, i < j ∧ q = sorted.get ⟨j, hj⟩)
          (clusterOuter t sorted.enum (sorted.enum.drop m) p) idxs := by
  intro n
  induction n with
  | zero =>
    intro m p hn _
    have hm : sorted.enum.length ≤ m := by rw [List.enum_length]; omega
    rw [List.drop_eq_nil_of_le hm]
    exact ⟨[], List.chain'_nil, by simp, by simp [clusterOuter]⟩
  | succ n ih =>
    intro m p hn hpre
    by_cases hm : m < sorted.length
    · have hmE : m < sorted.enum.length := by rwa [List.enum_length]
      rw [List.drop_eq_getElem_cons hmE, List.getElem_enum]
      by_cases hid : (sorted[m]).id ∈ p
      · rw [show clusterOuter t sorted.enum
            ((m, sorted[m]) :: sorted.enum.drop (m + 1)) p
            = clusterOuter t sorted.enum (sorted.enum.drop (m + 1)) p by
          simp [clusterOuter, hid]]
        obtain ⟨idxs, hchain, hge, hfa⟩ := ih (m + 1) p (by omega)
          (fun k hk hkm => by
            rcases Nat.lt_or_ge k m with h | h
            · exact hpre k hk h
            · have hkm2 : k = m := by omega
              subst hkm2
              exact hid)
        exact ⟨idxs, hchain, fun x hx => by have := hge x hx; omega, hfa⟩
      · obtain ⟨A, hq, ht, hp, -, hmem⟩ := clusterScan_struct t m sorted[m]
          sorted.enum
          { text := (sorted[m]).text, questions := [sorted[m]],
            years := truthySet (sorted[m]).year,
            total_marks := (sorted[m]).marks,
            modules := truthySet (sorted[m]).module }
          ((sorted[m]).id :: p)
        rw [show clusterOuter t sorted.enum
            ((m, sorted[m]) :: sorted.enum.drop (m + 1)) p
            = (clusterScan t m sorted[m] sorted.enum
                { text := (sorted[m]).text, questions := [sorted[m]],
                  years := truthySet (sorted[m]).year,
                  total_marks := (sorted[m]).marks,
                  modules := truthySet (sorted[m]).module }
                ((sorted[m]).id :: p)).1 ::
              clusterOuter t sorted.enum (sorted.enum.drop (m + 1))
                (clusterScan t m sorted[m] sorted.enum
                  { text := (sorted[m]).text, questions := [sorted[m]],
                    years := truthySet (sorted[m]).year,
                    total_marks := (sorted[m]).marks,
                    modules := truthySet (sorted[m]).module }
                  ((sorted[m]).id :: p)).2 by
          simp [clusterOuter, hid]]
        obtain ⟨idxs, hchain, hge, hfa⟩ := ih (m + 1)
          (clusterScan t m sorted[m] sorted.enum
            { text := (sorted[m]).text, questions := [sorted[m]],
              years := truthySet (sorted[m]).year,
              total_marks := (sorted[m]).marks,
              modules := truthySet (sorted[m]).module }
            ((sorted[m]).id :: p)).2 (by omega)
          (fun k hk hkm => by
            rw [hp]
            rcases Nat.lt_or_ge k m with h | h
            · exact List.mem_append_right _
                (List.mem_cons_of_mem _ (hpre k hk h))
            · have hkm2 : k = m := by omega
              subst hkm2
              exact List.mem_append_right _ (List.mem_cons_self _ _))
        refine ⟨m :: idxs, ?_, ?_, ?_⟩
        · rw [List.chain'_cons']
          refine ⟨fun y hy => ?_, hchain⟩
          have := hge y (List.mem_of_mem_head? hy)
          omega
        · intro x hx
          rcases List.mem_cons.mp hx with rfl | hx
          · exact le_refl _
          · have := hge x hx
            omega
        · refine List.Forall₂.cons ⟨hm, ?_, ?_, ?_⟩ hfa
          · exact ht
          · rw [hq]
            exact List.mem_append_left _ (List.mem_singleton.mpr rfl)
          · intro q hqmem
            rw [hq] at hqmem
            rcases List.mem_append.mp hqmem with hq1 | hqA
            · exact Or.inl (List.mem_singleton.mp hq1)
            · obtain ⟨hqid, j, hjE, -⟩ := hmem q hqA
              obtain ⟨hj, hget⟩ := List.getElem?_eq_some_iff.mp
                (List.mk_mem_enum_iff_getElem?.mp hjE)
              have hjm : m < j := by
                rcases Nat.lt_trichotomy j m with h | h | h
                · exfalso
                  apply hqid
                  refine List.mem_cons_of_mem _ ?_
                  have h2 := hpre j hj h
                  have hq2 : q = sorted.get ⟨j, hj⟩ := hget.symm
                  rw [hq2]
                  exact h2
                · subst h
                  exfalso
                  apply hqid
                  rw [← hget]
                  exact List.mem_cons_self _ _
                · exact h
              exact Or.inr ⟨j, hj, hjm, hget.symm⟩
    · have hmE : sorted.enum.length ≤ m := by rw [List.enum_length]; omega
      rw [List.drop_eq_nil_of_le hmE]
      exact ⟨[], List.chain'_nil, by simp, by simp [clusterOuter]⟩

/-- Claim C5.  For every question list and threshold the clusters are
emitted in the order their seeds occur in the (stable, descending
length) sorted pass — the seed positions `idxs` are strictly increasing
— and in every cluster the representative text is the text of a member
of maximal raw text length; among members of that same maximal length
the representative is the one first encountered in the original input
order (every other maximal-length member occurs after it in `qs`, by
stability of the sort). -/
theorem claim_C5 (qs : List AnalyzedQuestion) (t : ℚ) :
    ∃ idxs : List Nat,
      idxs.Chain' (· < ·) ∧
      List.Forall₂ (fun (c : Cluster) (i : Nat) =>
        ∃ hi : i < (sortByLenDesc qs).length,
          c.text = ((sortByLenDesc qs).get ⟨i, hi⟩).text ∧
          ((sortByLenDesc qs).get ⟨i, hi⟩) ∈ c.questions ∧
          (∀ q ∈ c.questions,
            q.text.length ≤ ((sortByLenDesc qs).get ⟨i, hi⟩).text.length) ∧
          (∀ q ∈ c.questions,
            q.text.length = ((sortByLenDesc qs).get ⟨i, hi⟩).text.length →
              q = (sortByLenDesc qs).get ⟨i, hi⟩ ∨
              ([(sortByLenDesc qs).get ⟨i, hi⟩, q]).Sublist qs))
        (cluster_similar_questions qs t) idxs := by
  obtain ⟨idxs, hchain, -, hfa⟩ := clusterOuter_seeds t (sortByLenDesc qs)
    (sortByLenDesc qs).length 0 [] (by omega)
    (fun k hk h => absurd h (Nat.not_lt_zero k))
  refine ⟨idxs, hchain, ?_⟩
  have hcl : cluster_similar_questions qs t
      = clusterOuter t (sortByLenDesc qs).enum
          ((sortByLenDesc qs).enum.drop 0) [] := by
    rw [List.drop_zero]
    rfl
  rw [hcl]
  have hsorted : (sortByLenDesc qs).Pairwise (fun a b =>
      (fun a b : AnalyzedQuestion =>
        decide (b.text.length ≤ a.text.length)) a b = true) :=
    List.sorted_mergeSort lenDescLe_trans lenDescLe_total qs
  refine hfa.imp ?_
  rintro c i ⟨hi, htext, hmem, hall⟩
  refine ⟨hi, htext, hmem, ?_, ?_⟩
  · intro q hq
    rcases hall q hq with rfl | ⟨j, hj, hij, rfl⟩
    · exact le_refl _
    · have h2 := (List.pairwise_iff_getElem.mp hsorted) i j hi hj hij
      simpa using h2
  · intro q hq hlen
    rcases hall q hq with rfl | ⟨j, hj, hij, rfl⟩
    · exact Or.inl rfl
    · right
      have hpair : ([(sortByLenDesc qs).get ⟨i, hi⟩,
          (sortByLenDesc qs).get ⟨j, hj⟩]).Sublist (sortByLenDesc qs) :=
        pair_sublist_of_lt _ i j hi hj hij
      have hfe := mergeSort_filter_class qs
        (fun x => decide (x.text.length
          = ((sortByLenDesc qs).get ⟨i, hi⟩).text.length))
        (fun x y hx hy => by
          simp only [decide_eq_true_eq] at hx hy ⊢
          omega)
      have hps : ([(sortByLenDesc qs).get ⟨i, hi⟩,
          (sortByLenDesc qs).get ⟨j, hj⟩]).Sublist
            ((sortByLenDesc qs).filter (fun x => decide (x.text.length
              = ((sortByLenDesc qs).get ⟨i, hi⟩).text.length))) := by
        have h3 := List.Sublist.filter (fun x => decide (x.text.length
          = ((sortByLenDesc qs).get ⟨i, hi⟩).text.length)) hpair
        rwa [show ([(sortByLenDesc qs).get ⟨i, hi⟩,
            (sortByLenDesc qs).get ⟨j, hj⟩]).filter
              (fun x => decide (x.text.length
                = ((sortByLenDesc qs).get ⟨i, hi⟩).text.length))
            = [(sortByLenDesc qs).get ⟨i, hi⟩,
               (sortByLenDesc qs).get ⟨j, hj⟩] by
          rw [List.filter_cons_of_pos (by simp),
            List.filter_cons_of_pos (by simpa using hlen), List.filter_nil]] at h3
      rw [hfe] at hps
      exact hps.trans (List.filter_sublist qs)

/-- Witness for claim C5: its instantiation on a concrete one-question
list at threshold 1. -/
theorem claim_C5_witness :
    ∃ idxs : List Nat,
      idxs.Chain' (· < ·) ∧
      List.Forall₂ (fun (c : Cluster) (i : Nat) =>
        ∃ hi : i < (sortByLenDesc [c6qa]).length,
          c.text = ((sortByLenDesc [c6qa]).get ⟨i, hi⟩).text ∧
          ((sortByLenDesc [c6qa]).get ⟨i, hi⟩) ∈ c.questions ∧
          (∀ q ∈ c.questions,
            q.text.length ≤ ((sortByLenDesc [c6qa]).get ⟨i, hi⟩).text.length) ∧
          (∀ q ∈ c.questions,
            q.text.length = ((sortByLenDesc [c6qa]).get ⟨i, hi⟩).text.length →
              q = (sortByLenDesc [c6qa]).get ⟨i, hi⟩ ∨
              ([(sortByLenDesc [c6qa]).get ⟨i, hi⟩, q]).Sublist [c6qa]))
        (cluster_similar_questions [c6qa] (1 : ℚ)) idxs :=
  claim_C5 [c6qa] (1 : ℚ)

end StudyAgent
